import Mathlib

/-!
Verification of scripts/update_publications.py.

Shallow embedding conventions:
* Python strings are Lean `String` / `List Char`; the ASCII fragment of the
  regex classes `\w`, `\s`, `\d` is modelled (the reference data and the HTML
  patterns are ASCII).
* JSON decimals (impact factors) are modelled as `ℚ`; Python `round(x, 1)` is
  modelled as rounding to one decimal with ties to even.
* Python dicts are modelled as insertion-ordered association lists with
  (implicitly) unique keys; `defaultdict` access is an in-place update that
  appends a fresh entry when the key is absent.
* File and network I/O is out of scope; each function is modelled on the data
  it reads and the data it writes.
-/

namespace PubUpdate

/-! ### Character classes (Python regex `\w`, `\s`, `\d`, ASCII fragment) -/

/-- Python regex class `\w` (ASCII fragment): alphanumeric or underscore. -/
def isWordChar (c : Char) : Bool := c.isAlphanum || c == '_'

/-- Python regex class `\s`: the six ASCII whitespace characters. -/
def isPySpace (c : Char) : Bool :=
  c == ' ' || c == '\t' || c == '\n' || c == '\r' || c == '\x0b' || c == '\x0c'

/-- Python `str.lower` on one character (ASCII fragment). -/
def pyLower (c : Char) : Char := c.toLower

/-! ### `normalize_journal_name` (lines 145-152)

Python: `normalized = re.sub(r'[^\w\s]', '', name.lower())` followed by
`normalized = ' '.join(normalized.split())`. -/

/-- Python `str.split()` with no separator: split on runs of whitespace,
dropping empty pieces.  `acc` is the current word, accumulated in reverse. -/
def pySplitAux : List Char → List Char → List (List Char)
  | [], acc => if acc.isEmpty then [] else [acc.reverse]
  | c :: rest, acc =>
    if isPySpace c then
      if acc.isEmpty then pySplitAux rest [] else acc.reverse :: pySplitAux rest []
    else pySplitAux rest (c :: acc)

/-- Python `str.split()` (whitespace split, empties dropped). -/
def pySplit (l : List Char) : List (List Char) := pySplitAux l []

/-- Python `' '.join(words)`. -/
def joinSpace : List (List Char) → List Char
  | [] => []
  | w :: ws =>
    match ws with
    | [] => w
    | _ :: _ => w ++ ' ' :: joinSpace ws

/-- Body of `normalize_journal_name` on the character list: lowercase, strip
every character that is neither a word character nor whitespace, then collapse
whitespace runs to single spaces. -/
def normalizeChars (l : List Char) : List Char :=
  joinSpace (pySplit ((l.map pyLower).filter (fun c => isWordChar c || isPySpace c)))

/-- `normalize_journal_name` (lines 145-152).  The `if not name` guard of the
Python code returns `""` for the empty string. -/
def normalize_journal_name (s : String) : String :=
  if s = "" then "" else String.mk (normalizeChars s.toList)

/-! ### Idempotence machinery for normalization -/

theorem toNat_ofNat_valid (n : Nat) (h : n.isValidChar) : (Char.ofNat n).toNat = n := by
  simp [Char.ofNat, h, Char.ofNatAux, Char.toNat, UInt32.toNat]

theorem toNat_toLower (c : Char) :
    (Char.toLower c).toNat =
      if c.toNat ≥ 65 ∧ c.toNat ≤ 90 then c.toNat + 32 else c.toNat := by
  show (if c.toNat ≥ 65 ∧ c.toNat ≤ 90 then Char.ofNat (c.toNat + 32) else c).toNat =
    if c.toNat ≥ 65 ∧ c.toNat ≤ 90 then c.toNat + 32 else c.toNat
  by_cases h : c.toNat ≥ 65 ∧ c.toNat ≤ 90
  · rw [if_pos h, if_pos h]
    exact toNat_ofNat_valid _ (Or.inl (by omega))
  · rw [if_neg h, if_neg h]

theorem pyLower_idem (c : Char) : pyLower (pyLower c) = pyLower c := by
  show (Char.toLower c).toLower = Char.toLower c
  have h1 := toNat_toLower c
  have h2 : ¬((Char.toLower c).toNat ≥ 65 ∧ (Char.toLower c).toNat ≤ 90) := by
    by_cases hc : c.toNat ≥ 65 ∧ c.toNat ≤ 90
    · rw [if_pos hc] at h1; omega
    · rw [if_neg hc] at h1; omega
  show (if (Char.toLower c).toNat ≥ 65 ∧ (Char.toLower c).toNat ≤ 90
      then Char.ofNat ((Char.toLower c).toNat + 32) else Char.toLower c) = Char.toLower c
  rw [if_neg h2]

theorem mem_pySplitAux {P : Char → Prop} :
    ∀ (l acc : List Char), (∀ c ∈ l, P c) → (∀ c ∈ acc, P c) →
      ∀ w ∈ pySplitAux l acc, ∀ c ∈ w, P c := by
  intro l
  induction l with
  | nil =>
    intro acc _ hacc w hw c hc
    cases he : acc.isEmpty with
    | true => simp [pySplitAux, he] at hw
    | false =>
      simp [pySplitAux, he] at hw
      subst hw
      exact hacc c (List.mem_reverse.mp hc)
  | cons a rest ih =>
    intro acc hl hacc w hw
    have hl' : ∀ c ∈ rest, P c := fun c hc => hl c (List.mem_cons_of_mem a hc)
    cases hs : isPySpace a with
    | true =>
      cases he : acc.isEmpty with
      | true =>
        simp only [pySplitAux, hs, he, if_true] at hw
        exact ih [] hl' (by simp) w hw
      | false =>
        simp only [pySplitAux, hs, he, if_true, Bool.false_eq_true, if_false,
          List.mem_cons] at hw
        rcases hw with hw | hw
        · subst hw
          intro c hc
          exact hacc c (List.mem_reverse.mp hc)
        · exact ih [] hl' (by simp) w hw
    | false =>
      simp only [pySplitAux, hs, Bool.false_eq_true, if_false] at hw
      refine ih (a :: acc) hl' ?_ w hw
      intro c hc
      rcases List.mem_cons.mp hc with hc | hc
      · rw [hc]; exact hl a (List.mem_cons_self _ _)
      · exact hacc c hc

theorem pySplitAux_ne_nil :
    ∀ (l acc : List Char), ∀ w ∈ pySplitAux l acc, w ≠ [] := by
  intro l
  induction l with
  | nil =>
    intro acc w hw
    cases he : acc.isEmpty with
    | true => simp [pySplitAux, he] at hw
    | false =>
      simp [pySplitAux, he] at hw
      subst hw
      simpa [List.isEmpty_iff] using he
  | cons a rest ih =>
    intro acc w hw
    cases hs : isPySpace a with
    | true =>
      cases he : acc.isEmpty with
      | true =>
        simp only [pySplitAux, hs, he, if_true] at hw
        exact ih [] w hw
      | false =>
        simp only [pySplitAux, hs, he, if_true, Bool.false_eq_true, if_false,
          List.mem_cons] at hw
        rcases hw with hw | hw
        · subst hw
          simp only [ne_eq, List.reverse_eq_nil_iff]
          simpa [List.isEmpty_iff] using he
        · exact ih [] w hw
    | false =>
      simp only [pySplitAux, hs, Bool.false_eq_true, if_false] at hw
      exact ih (a :: acc) w hw

theorem pySplitAux_no_space :
    ∀ (l acc : List Char), (∀ c ∈ acc, isPySpace c = false) →
      ∀ w ∈ pySplitAux l acc, ∀ c ∈ w, isPySpace c = false := by
  intro l
  induction l with
  | nil =>
    intro acc hacc w hw c hc
    cases he : acc.isEmpty with
    | true => simp [pySplitAux, he] at hw
    | false =>
      simp [pySplitAux, he] at hw
      subst hw
      exact hacc c (List.mem_reverse.mp hc)
  | cons a rest ih =>
    intro acc hacc w hw
    cases hs : isPySpace a with
    | true =>
      cases he : acc.isEmpty with
      | true =>
        simp only [pySplitAux, hs, he, if_true] at hw
        exact ih [] (by simp) w hw
      | false =>
        simp only [pySplitAux, hs, he, if_true, Bool.false_eq_true, if_false,
          List.mem_cons] at hw
        rcases hw with hw | hw
        · subst hw
          intro c hc
          exact hacc c (List.mem_reverse.mp hc)
        · exact ih [] (by simp) w hw
    | false =>
      simp only [pySplitAux, hs, Bool.false_eq_true, if_false] at hw
      refine ih (a :: acc) ?_ w hw
      intro c hc
      rcases List.mem_cons.mp hc with hc | hc
      · subst hc; exact hs
      · exact hacc c hc

theorem pySplitAux_append_word :
    ∀ (w : List Char), (∀ c ∈ w, isPySpace c = false) →
      ∀ (l acc : List Char), pySplitAux (w ++ l) acc = pySplitAux l (w.reverse ++ acc) := by
  intro w
  induction w with
  | nil => intro _ l acc; simp
  | cons a w' ih =>
    intro hw l acc
    have ha : isPySpace a = false := hw a (List.mem_cons_self _ _)
    show pySplitAux (a :: (w' ++ l)) acc = pySplitAux l ((a :: w').reverse ++ acc)
    simp only [pySplitAux, ha, Bool.false_eq_true, if_false]
    rw [ih (fun c hc => hw c (List.mem_cons_of_mem a hc)) l (a :: acc)]
    simp

theorem pySplit_joinSpace :
    ∀ (ws : List (List Char)),
      (∀ w ∈ ws, w ≠ [] ∧ ∀ c ∈ w, isPySpace c = false) →
      pySplit (joinSpace ws) = ws := by
  intro ws
  induction ws with
  | nil => intro _; rfl
  | cons w ws ih =>
    intro h
    obtain ⟨hne, hns⟩ := h w (List.mem_cons_self _ _)
    cases ws with
    | nil =>
      show pySplitAux (joinSpace [w]) [] = [w]
      have hj : joinSpace [w] = w := rfl
      rw [hj, ← List.append_nil w, pySplitAux_append_word w hns [] []]
      have hne' : (w.reverse).isEmpty = false := by
        simp [List.isEmpty_iff, hne]
      simp [pySplitAux, hne']
    | cons v ws' =>
      have hjoin : joinSpace (w :: v :: ws') = w ++ ' ' :: joinSpace (v :: ws') := rfl
      show pySplitAux (joinSpace (w :: v :: ws')) [] = w :: v :: ws'
      rw [hjoin, pySplitAux_append_word w hns (' ' :: joinSpace (v :: ws')) []]
      have hsp : isPySpace ' ' = true := rfl
      have hne' : (w.reverse).isEmpty = false := by
        simp [List.isEmpty_iff, hne]
      simp only [List.append_nil, pySplitAux, hsp, if_true, hne', Bool.false_eq_true,
        if_false, List.reverse_reverse]
      have hih := ih (fun u hu => h u (List.mem_cons_of_mem w hu))
      rw [show pySplitAux (joinSpace (v :: ws')) [] = pySplit (joinSpace (v :: ws')) from rfl,
        hih]

theorem mem_joinSpace :
    ∀ (ws : List (List Char)), ∀ c ∈ joinSpace ws, c = ' ' ∨ ∃ w ∈ ws, c ∈ w := by
  intro ws
  induction ws with
  | nil => intro c hc; simp [joinSpace] at hc
  | cons w ws ih =>
    intro c hc
    cases ws with
    | nil =>
      right
      exact ⟨w, List.mem_cons_self _ _, hc⟩
    | cons v ws' =>
      have hj : joinSpace (w :: v :: ws') = w ++ ' ' :: joinSpace (v :: ws') := rfl
      rw [hj] at hc
      rcases List.mem_append.mp hc with hc | hc
      · right; exact ⟨w, List.mem_cons_self _ _, hc⟩
      · rcases List.mem_cons.mp hc with hc | hc
        · left; exact hc
        · rcases ih c hc with hc | ⟨u, hu, hcu⟩
          · left; exact hc
          · right; exact ⟨u, List.mem_cons_of_mem _ hu, hcu⟩

theorem map_eq_self_of_fix {f : Char → Char} :
    ∀ (l : List Char), (∀ c ∈ l, f c = c) → l.map f = l := by
  intro l
  induction l with
  | nil => intro _; rfl
  | cons a rest ih =>
    intro h
    simp only [List.map_cons, h a (List.mem_cons_self _ _),
      ih (fun c hc => h c (List.mem_cons_of_mem a hc))]

theorem normalizeChars_idem (l : List Char) :
    normalizeChars (normalizeChars l) = normalizeChars l := by
  set m := (l.map pyLower).filter (fun c => isWordChar c || isPySpace c) with hm
  have hmchars : ∀ c ∈ m, (isWordChar c || isPySpace c) = true ∧ pyLower c = c := by
    intro c hc
    rw [hm] at hc
    have h1 := List.of_mem_filter hc
    have h2 := List.mem_of_mem_filter hc
    refine ⟨h1, ?_⟩
    rcases List.mem_map.mp h2 with ⟨d, _, hd⟩
    rw [← hd]
    exact pyLower_idem d
  have hwmem : ∀ w ∈ pySplit m, ∀ c ∈ w,
      ((isWordChar c || isPySpace c) = true ∧ pyLower c = c) :=
    mem_pySplitAux m [] hmchars (by simp)
  have hwne : ∀ w ∈ pySplit m, w ≠ [] := pySplitAux_ne_nil m []
  have hwns : ∀ w ∈ pySplit m, ∀ c ∈ w, isPySpace c = false :=
    pySplitAux_no_space m [] (by simp)
  have hjchars : ∀ c ∈ joinSpace (pySplit m),
      pyLower c = c ∧ (isWordChar c || isPySpace c) = true := by
    intro c hc
    rcases mem_joinSpace (pySplit m) c hc with hc | ⟨w, hw, hcw⟩
    · subst hc
      constructor
      · decide
      · decide
    · exact ⟨(hwmem w hw c hcw).2, (hwmem w hw c hcw).1⟩
  show normalizeChars (joinSpace (pySplit m)) = joinSpace (pySplit m)
  unfold normalizeChars
  rw [map_eq_self_of_fix _ (fun c hc => (hjchars c hc).1)]
  rw [List.filter_eq_self.mpr (fun c hc => (hjchars c hc).2)]
  rw [pySplit_joinSpace (pySplit m) (fun w hw => ⟨hwne w hw, hwns w hw⟩)]

/-! ### JCR reference table and `match_journal_to_jcr` (lines 155-175) -/

/-- One entry of the JCR reference table `jcr_impact_factors.json`: the key
`if` is required (`jcr_match['if']` would raise otherwise), `quartile` and
`full_name` are optional (`get` with default). -/
structure JcrInfo where
  «if» : ℚ
  quartile : Option String := none
  full_name : Option String := none
deriving DecidableEq

/-- The reference table: a Python dict modelled as an insertion-ordered
association list (keys unique). -/
abbrev JcrData := List (String × JcrInfo)

/-- `match_journal_to_jcr` (lines 155-175): exact dict lookup on the
abbreviation first, then a scan in table order comparing the normalized key
and the normalized `full_name` against the normalized abbreviation and the
normalized title, with the four comparisons in the code's order. -/
def match_journal_to_jcr (journal_abbrev journal_title : String)
    (jcr_data : JcrData) : Option JcrInfo :=
  match jcr_data.find? (fun e => e.1 == journal_abbrev) with
  | some e => some e.2
  | none =>
    let normalized_abbrev := normalize_journal_name journal_abbrev
    let normalized_title := normalize_journal_name journal_title
    (jcr_data.find? (fun e =>
      let jcr_normalized := normalize_journal_name e.1
      let jcr_full_normalized := normalize_journal_name (e.2.full_name.getD "")
      jcr_normalized == normalized_abbrev || jcr_normalized == normalized_title ||
        jcr_full_normalized == normalized_abbrev ||
        jcr_full_normalized == normalized_title)).map (fun e => e.2)

/-- Modelled from the claim wording of C2, not from the code: exact match on
the abbreviation as a literal key, otherwise the first table entry whose
normalized key or normalized stored full name equals either normalized record
string, and `none` when no entry satisfies this. -/
def matchSpecC2 (journal_abbrev journal_title : String)
    (jcr_data : JcrData) : Option JcrInfo :=
  if (jcr_data.map Prod.fst).contains journal_abbrev then
    (jcr_data.find? (fun e => e.1 == journal_abbrev)).map (fun e => e.2)
  else
    let na := normalize_journal_name journal_abbrev
    let nt := normalize_journal_name journal_title
    (jcr_data.find? (fun e =>
      (normalize_journal_name e.1 == na || normalize_journal_name e.1 == nt) ||
      (normalize_journal_name (e.2.full_name.getD "") == na ||
        normalize_journal_name (e.2.full_name.getD "") == nt))).map (fun e => e.2)

theorem contains_map_fst (jcr : JcrData) (a : String) :
    (jcr.map Prod.fst).contains a = (jcr.find? (fun e => e.1 == a)).isSome := by
  induction jcr with
  | nil => rfl
  | cons e rest ih =>
    cases he : (e.1 == a) with
    | true =>
      have : (a == e.1) = true := by
        rw [beq_iff_eq] at he ⊢
        exact he.symm
      simp [List.find?, he, List.contains_cons, this]
    | false =>
      have hsym : (a == e.1) = false := by
        rw [beq_eq_false_iff_ne] at he ⊢
        exact fun h => he h.symm
      rw [List.map_cons, List.contains_cons, hsym, Bool.false_or,
        List.find?_cons_of_neg _ (by simp [he])]
      exact ih

/-- Claim C2: `match_journal_to_jcr` first returns the entry stored under the
abbreviation when the abbreviation is a literal key of the table; otherwise it
normalizes the record's abbreviation and full title and returns the first
table entry whose normalized key or normalized stored full name equals either
normalized record string, and returns `none` when no entry satisfies this. -/
theorem match_journal_to_jcr_eq_specC2 (a t : String) (jcr : JcrData) :
    match_journal_to_jcr a t jcr = matchSpecC2 a t jcr := by
  unfold match_journal_to_jcr matchSpecC2
  rw [contains_map_fst]
  cases hf : jcr.find? (fun e => e.1 == a) with
  | some e => simp [hf]
  | none =>
    simp only [hf, Option.isSome_none, Bool.false_eq_true, if_false]
    have hpred : (fun (e : String × JcrInfo) =>
        normalize_journal_name e.1 == normalize_journal_name a ||
          normalize_journal_name e.1 == normalize_journal_name t ||
          normalize_journal_name (e.2.full_name.getD "") == normalize_journal_name a ||
          normalize_journal_name (e.2.full_name.getD "") == normalize_journal_name t) =
        (fun (e : String × JcrInfo) =>
        (normalize_journal_name e.1 == normalize_journal_name a ||
          normalize_journal_name e.1 == normalize_journal_name t) ||
        (normalize_journal_name (e.2.full_name.getD "") == normalize_journal_name a ||
          normalize_journal_name (e.2.full_name.getD "") == normalize_journal_name t)) := by
      funext e
      simp [Bool.or_assoc]
    rw [hpred]

/-- Claim C9: journal-name normalization is idempotent — for every string `s`,
`normalize_journal_name (normalize_journal_name s) = normalize_journal_name s`. -/
theorem normalize_journal_name_idem (s : String) :
    normalize_journal_name (normalize_journal_name s) = normalize_journal_name s := by
  unfold normalize_journal_name
  by_cases h : s = ""
  · simp [h]
  · rw [if_neg h]
    by_cases h2 : String.mk (normalizeChars s.toList) = ""
    · rw [if_pos h2]
      exact h2.symm
    · rw [if_neg h2]
      have ht : (String.mk (normalizeChars s.toList)).toList = normalizeChars s.toList := rfl
      rw [ht, normalizeChars_idem]

/-! ### Claim C10: behaviour on empty-normalizing abbreviations -/

/-- Concrete reference table for the C10 counterexample: the first entry's
`full_name` normalizes to a nonempty string, the second entry has no
`full_name`. -/
def jcrC10 : JcrData :=
  [("Journal of X", { «if» := 1, full_name := some "Alpha Beta" }),
   ("K2", { «if» := 2 })]

/-- Claim C10 counterexample: with abbreviation `"!!!"` (normalizes to the
empty string, not a literal key) and title `"Alpha Beta"`, the table contains
an entry with absent `full_name` (`"K2"`, the first and only such entry), yet
`match_journal_to_jcr` returns the *first* entry — whose normalized full name
equals the normalized title — not the `"K2"` entry, so the result does depend
on the record's title. -/
theorem match_journal_to_jcr_c10_cex :
    normalize_journal_name "!!!" = "" ∧
    jcrC10.find? (fun e => e.1 == "!!!") = none ∧
    jcrC10.find? (fun e => normalize_journal_name (e.2.full_name.getD "") == "") =
      some ("K2", { «if» := 2 }) ∧
    match_journal_to_jcr "!!!" "Alpha Beta" jcrC10 =
      some { «if» := 1, full_name := some "Alpha Beta" } ∧
    ({ «if» := 1, full_name := some "Alpha Beta" } : JcrInfo) ≠ { «if» := 2 } := by
  refine ⟨by decide, by decide, by decide, by decide, by decide⟩

/-- Claim C10, amended: when the abbreviation normalizes to the empty string
and is not a literal key, the fallback returns the first entry whose
normalized key is empty or equals the normalized title, or whose normalized
stored full name is empty or equals the normalized title (so an entry matching
the record's title can preempt the first empty-`full_name` entry); in
particular, when some entry has an absent or empty-normalizing `full_name`,
the result is never `none`. -/
theorem match_journal_to_jcr_empty_abbrev (a t : String) (jcr : JcrData)
    (hna : normalize_journal_name a = "")
    (hkey : jcr.find? (fun e => e.1 == a) = none) :
    match_journal_to_jcr a t jcr =
      (jcr.find? (fun e =>
        normalize_journal_name e.1 == "" ||
        normalize_journal_name e.1 == normalize_journal_name t ||
        normalize_journal_name (e.2.full_name.getD "") == "" ||
        normalize_journal_name (e.2.full_name.getD "") == normalize_journal_name t)).map
          (fun e => e.2) ∧
    ((∃ e ∈ jcr, normalize_journal_name (e.2.full_name.getD "") = "") →
      (match_journal_to_jcr a t jcr).isSome = true) := by
  have hmain : match_journal_to_jcr a t jcr =
      (jcr.find? (fun e =>
        normalize_journal_name e.1 == "" ||
        normalize_journal_name e.1 == normalize_journal_name t ||
        normalize_journal_name (e.2.full_name.getD "") == "" ||
        normalize_journal_name (e.2.full_name.getD "") == normalize_journal_name t)).map
          (fun e => e.2) := by
    unfold match_journal_to_jcr
    rw [hkey]
    rw [hna]
  refine ⟨hmain, ?_⟩
  rintro ⟨e, he, hfe⟩
  rw [hmain]
  have hs : (jcr.find? (fun e =>
      normalize_journal_name e.1 == "" ||
      normalize_journal_name e.1 == normalize_journal_name t ||
      normalize_journal_name (e.2.full_name.getD "") == "" ||
      normalize_journal_name (e.2.full_name.getD "") == normalize_journal_name t)).isSome =
        true := by
    refine List.find?_isSome.mpr ⟨e, he, ?_⟩
    simp [hfe]
  obtain ⟨x, hx⟩ := Option.isSome_iff_exists.mp hs
  rw [hx]
  rfl

/-- Witness for the amended C10 theorem at the counterexample input. -/
theorem match_journal_to_jcr_empty_abbrev_witness :
    (match_journal_to_jcr "!!!" "Alpha Beta" jcrC10).isSome = true :=
  (match_journal_to_jcr_empty_abbrev "!!!" "Alpha Beta" jcrC10 (by decide) (by decide)).2
    ⟨("K2", { «if» := 2 }), by decide, by decide⟩

/-! ### Parsed records and `analyze_publications` (lines 98-218) -/

/-- One parsed publication record: the dict built by `parse_article`
(lines 132-138). -/
structure Pub where
  pmid : String
  title : String
  journal_title : String
  journal_abbrev : String
  year : String
deriving DecidableEq

/-- Per-journal statistics bucket; the `defaultdict` default (line 180) is
`{'count': 0, 'if': 0, 'quartile': '', 'years': []}`. -/
structure JStats where
  count : ℕ := 0
  «if» : ℚ := 0
  quartile : String := ""
  years : List String := []
deriving DecidableEq

/-- Per-year statistics bucket; the `defaultdict` default (line 181) is
`{'count': 0, 'total_if': 0}`. -/
structure YStats where
  count : ℕ := 0
  total_if : ℚ := 0
deriving DecidableEq

/-- Python `defaultdict` access plus in-place mutation: rewrite the entry
under `k` through `f`, starting from the default `d` and appending a fresh
entry in insertion order when the key is absent. -/
def updateAssoc {α : Type} (m : List (String × α)) (k : String) (d : α) (f : α → α) :
    List (String × α) :=
  match m with
  | [] => [(k, f d)]
  | (k', v) :: rest =>
    if k' == k then (k', f v) :: rest else (k', v) :: updateAssoc rest k d f

/-- Dict lookup: first binding of the key (keys are unique). -/
def lookupA {α : Type} (m : List (String × α)) (k : String) : Option α :=
  (m.find? (fun e => e.1 == k)).map (fun e => e.2)

/-- Journal bucket key (line 193): the abbreviation, falling back to the full
title when the abbreviation is empty. -/
def pubKey (p : Pub) : String :=
  if p.journal_abbrev ≠ "" then p.journal_abbrev else p.journal_title

/-- One iteration of the `analyze_publications` loop on `journal_stats`
(lines 184-204): overwrite `if`/`quartile` from a successful JCR match (a
failed match leaves them alone), then increment `count`, then append a
nonempty year to `years`. -/
def stepJournal (jcr : JcrData) (stats : List (String × JStats)) (p : Pub) :
    List (String × JStats) :=
  let jcr_match := match_journal_to_jcr p.journal_abbrev p.journal_title jcr
  updateAssoc stats (pubKey p) {} (fun s =>
    let s1 := match jcr_match with
      | some j => { s with «if» := j.«if», quartile := j.quartile.getD "" }
      | none => s
    let s2 := { s1 with count := s1.count + 1 }
    if p.year ≠ "" then { s2 with years := s2.years ++ [p.year] } else s2)

/-- One iteration of the `analyze_publications` loop on `year_stats`
(lines 206-210): for a nonempty year, increment the year's `count` and add a
matched impact factor to `total_if`. -/
def stepYear (jcr : JcrData) (ys : List (String × YStats)) (p : Pub) :
    List (String × YStats) :=
  if p.year ≠ "" then
    updateAssoc ys p.year {} (fun s =>
      let s1 := { s with count := s.count + 1 }
      match match_journal_to_jcr p.journal_abbrev p.journal_title jcr with
      | some j => { s1 with total_if := s1.total_if + j.«if» }
      | none => s1)
  else ys

/-- The `journal_stats` map produced by `analyze_publications`. -/
def journalStats (jcr : JcrData) (pubs : List Pub) : List (String × JStats) :=
  pubs.foldl (stepJournal jcr) []

/-- The `year_stats` map produced by `analyze_publications`. -/
def yearStats (jcr : JcrData) (pubs : List Pub) : List (String × YStats) :=
  pubs.foldl (stepYear jcr) []

theorem lookupA_updateAssoc_self {α : Type} (m : List (String × α)) (k : String)
    (d : α) (f : α → α) :
    lookupA (updateAssoc m k d f) k = some (f ((lookupA m k).getD d)) := by
  induction m with
  | nil => simp [updateAssoc, lookupA, List.find?]
  | cons e rest ih =>
    obtain ⟨k', v⟩ := e
    cases hk : (k' == k) with
    | true =>
      simp only [updateAssoc, hk, if_true]
      simp [lookupA, List.find?, hk]
    | false =>
      simp only [updateAssoc, hk, Bool.false_eq_true, if_false]
      simp only [lookupA, List.find?, hk] at ih ⊢
      exact ih

theorem lookupA_updateAssoc_ne {α : Type} (m : List (String × α)) (k k' : String)
    (d : α) (f : α → α) (h : k' ≠ k) :
    lookupA (updateAssoc m k' d f) k = lookupA m k := by
  induction m with
  | nil =>
    have : (k' == k) = false := by
      rw [beq_eq_false_iff_ne]
      exact h
    simp [updateAssoc, lookupA, List.find?, this]
  | cons e rest ih =>
    obtain ⟨k'', v⟩ := e
    cases hk : (k'' == k') with
    | true =>
      have hkk : (k'' == k) = false := by
        rw [beq_iff_eq] at hk
        rw [beq_eq_false_iff_ne, hk]
        exact h
      simp only [updateAssoc, hk, if_true]
      simp [lookupA, List.find?, hkk]
    | false =>
      simp only [updateAssoc, hk, Bool.false_eq_true, if_false]
      cases hkk : (k'' == k) with
      | true => simp [lookupA, List.find?, hkk]
      | false =>
        simp only [lookupA, List.find?, hkk] at ih ⊢
        exact ih

/-- The JCR match carried by the last record with journal key `k` that
matched, scanning `pubs` left to right (`none` when no record with key `k`
matched). -/
def lastMatchFor (jcr : JcrData) (pubs : List Pub) (k : String) : Option JcrInfo :=
  pubs.foldl (fun acc p =>
    if pubKey p == k then
      match match_journal_to_jcr p.journal_abbrev p.journal_title jcr with
      | some j => some j
      | none => acc
    else acc) none

theorem journalStats_lookup_char (jcr : JcrData) (k : String) :
    ∀ pubs : List Pub,
      (lookupA (journalStats jcr pubs) k = none →
        (pubs.filter (fun p => pubKey p == k)).length = 0 ∧
        lastMatchFor jcr pubs k = none) ∧
      (∀ s : JStats, lookupA (journalStats jcr pubs) k = some s →
        s.count = (pubs.filter (fun p => pubKey p == k)).length ∧
        s.«if» = ((lastMatchFor jcr pubs k).map (fun j => j.«if»)).getD 0 ∧
        s.quartile = ((lastMatchFor jcr pubs k).map (fun j => j.quartile.getD "")).getD "") := by
  intro pubs
  induction pubs using List.reverseRecOn with
  | nil =>
    constructor
    · intro _
      exact ⟨rfl, rfl⟩
    · intro s hs
      simp [journalStats, lookupA, List.find?] at hs
  | append_singleton pubs p ih =>
    have hstep : journalStats jcr (pubs ++ [p]) =
        stepJournal jcr (journalStats jcr pubs) p := by
      simp [journalStats, List.foldl_append]
    have hlast : lastMatchFor jcr (pubs ++ [p]) k =
        if pubKey p == k then
          match match_journal_to_jcr p.journal_abbrev p.journal_title jcr with
          | some j => some j
          | none => lastMatchFor jcr pubs k
        else lastMatchFor jcr pubs k := by
      simp only [lastMatchFor, List.foldl_append, List.foldl_cons, List.foldl_nil]
    have hfilter : (pubs ++ [p]).filter (fun q => pubKey q == k) =
        pubs.filter (fun q => pubKey q == k) ++ (if pubKey p == k then [p] else []) := by
      rw [List.filter_append]
      congr 1
      cases hpk : (pubKey p == k) with
      | true => simp [List.filter, hpk]
      | false => simp [List.filter, hpk]
    cases hpk : (pubKey p == k) with
    | false =>
      have hne : pubKey p ≠ k := by
        rw [← beq_eq_false_iff_ne]
        exact hpk
      have hlook : lookupA (journalStats jcr (pubs ++ [p])) k =
          lookupA (journalStats jcr pubs) k := by
        rw [hstep]
        unfold stepJournal
        exact lookupA_updateAssoc_ne _ _ _ _ _ hne
      rw [hlook, hlast, hfilter]
      simp only [hpk, Bool.false_eq_true, if_false, List.append_nil]
      exact ih
    | true =>
      have hkeq : pubKey p = k := by
        rw [← beq_iff_eq]
        exact hpk
      have hlook : lookupA (journalStats jcr (pubs ++ [p])) k =
          some ((fun s =>
            let s1 := match match_journal_to_jcr p.journal_abbrev p.journal_title jcr with
              | some j => { s with «if» := j.«if», quartile := j.quartile.getD "" }
              | none => s
            let s2 := { s1 with count := s1.count + 1 }
            if p.year ≠ "" then { s2 with years := s2.years ++ [p.year] } else s2)
            ((lookupA (journalStats jcr pubs) k).getD {})) := by
        rw [hstep]
        unfold stepJournal
        rw [hkeq]
        exact lookupA_updateAssoc_self _ _ _ _
      rw [hlast, hfilter]
      simp only [hpk, if_true]
      constructor
      · intro hnone
        rw [hlook] at hnone
        exact absurd hnone (by simp)
      · intro s hs
        rw [hlook] at hs
        have hseq := Option.some_injective _ hs
        set prev := (lookupA (journalStats jcr pubs) k).getD {} with hprev
        have hcount : s.count = prev.count + 1 := by
          rw [← hseq]
          cases hm : match_journal_to_jcr p.journal_abbrev p.journal_title jcr with
          | some j => by_cases hy : p.year = "" <;> simp [hm, hy]
          | none => by_cases hy : p.year = "" <;> simp [hm, hy]
        have hif : s.«if» =
            match match_journal_to_jcr p.journal_abbrev p.journal_title jcr with
            | some j => j.«if»
            | none => prev.«if» := by
          rw [← hseq]
          cases hm : match_journal_to_jcr p.journal_abbrev p.journal_title jcr with
          | some j => by_cases hy : p.year = "" <;> simp [hm, hy]
          | none => by_cases hy : p.year = "" <;> simp [hm, hy]
        have hq : s.quartile =
            match match_journal_to_jcr p.journal_abbrev p.journal_title jcr with
            | some j => j.quartile.getD ""
            | none => prev.quartile := by
          rw [← hseq]
          cases hm : match_journal_to_jcr p.journal_abbrev p.journal_title jcr with
          | some j => by_cases hy : p.year = "" <;> simp [hm, hy]
          | none => by_cases hy : p.year = "" <;> simp [hm, hy]
        have hprevfacts : prev.count = (pubs.filter (fun q => pubKey q == k)).length ∧
            prev.«if» = ((lastMatchFor jcr pubs k).map (fun j => j.«if»)).getD 0 ∧
            prev.quartile =
              ((lastMatchFor jcr pubs k).map (fun j => j.quartile.getD "")).getD "" := by
          cases hl : lookupA (journalStats jcr pubs) k with
          | none =>
            obtain ⟨hlen, hlm⟩ := ih.1 hl
            rw [hprev, hl]
            refine ⟨?_, ?_, ?_⟩
            · simp [hlen]
            · simp [hlm]
            · simp [hlm]
          | some s0 =>
            obtain ⟨h1, h2, h3⟩ := ih.2 s0 hl
            rw [hprev, hl]
            exact ⟨h1, h2, h3⟩
        cases hm : match_journal_to_jcr p.journal_abbrev p.journal_title jcr with
        | some j =>
          refine ⟨?_, ?_, ?_⟩
          · rw [hcount, hprevfacts.1]
            simp
          · rw [hif]
            simp [hm]
          · rw [hq]
            simp [hm]
        | none =>
          refine ⟨?_, ?_, ?_⟩
          · rw [hcount, hprevfacts.1]
            simp
          · rw [hif]
            simp only [hm]
            exact hprevfacts.2.1
          · rw [hq]
            simp only [hm]
            exact hprevfacts.2.2

/-- Claim C3: for a journal bucket `k`, the aggregated `if` and `quartile`
are those of the last-seen matching record with that key (`0` resp. `""` when
no record matched), while `count` counts every record with the key, matched
or not — so records with no match leave `if`/`quartile` unchanged but still
increment the count, and later matches overwrite earlier ones. -/
theorem analyze_publications_last_match (jcr : JcrData) (pubs : List Pub)
    (k : String) (s : JStats)
    (hs : lookupA (journalStats jcr pubs) k = some s) :
    s.count = (pubs.filter (fun p => pubKey p == k)).length ∧
    s.«if» = ((lastMatchFor jcr pubs k).map (fun j => j.«if»)).getD 0 ∧
    s.quartile = ((lastMatchFor jcr pubs k).map (fun j => j.quartile.getD "")).getD "" :=
  (journalStats_lookup_char jcr k pubs).2 s hs

/-- Reference table for the C3 witness: two entries distinguished only by
their full names. -/
def jcrC3 : JcrData :=
  [("E1", { «if» := 1, quartile := some "Q1", full_name := some "Alpha" }),
   ("E2", { «if» := 2, quartile := some "Q2", full_name := some "Beta" })]

/-- Three records in the same journal bucket `"JM"`: the first matches `E1`,
the second matches `E2`, the third matches nothing. -/
def pubsC3 : List Pub :=
  [{ pmid := "1", title := "p1", journal_title := "Alpha", journal_abbrev := "JM",
     year := "2023" },
   { pmid := "2", title := "p2", journal_title := "Beta", journal_abbrev := "JM",
     year := "2024" },
   { pmid := "3", title := "p3", journal_title := "Gamma", journal_abbrev := "JM",
     year := "" }]

/-- The aggregated `"JM"` bucket for `pubsC3`: the last-seen match (`E2`)
supplies `if`/`quartile`, the unmatched third record still counts. -/
def sC3 : JStats := { count := 3, «if» := 2, quartile := "Q2", years := ["2023", "2024"] }

/-- Witness for claim C3 at a concrete input. -/
theorem analyze_publications_last_match_witness :
    sC3.count = (pubsC3.filter (fun p => pubKey p == "JM")).length ∧
    sC3.«if» = ((lastMatchFor jcrC3 pubsC3 "JM").map (fun j => j.«if»)).getD 0 ∧
    sC3.quartile =
      ((lastMatchFor jcrC3 pubsC3 "JM").map (fun j => j.quartile.getD "")).getD "" :=
  analyze_publications_last_match jcrC3 pubsC3 "JM" sC3 (by decide)

/-! ### Year extraction in `parse_article` (lines 114-130) -/

/-- Leftmost occurrence of four consecutive ASCII digits in `l`, returning
those four characters; mirrors `re.search(r'(\d{4})', ...)` — the scan is
leftmost-first and the quantifier takes exactly four digits. -/
def findFourDigitRun : List Char → Option (List Char)
  | [] => none
  | c1 :: rest =>
    match rest with
    | c2 :: c3 :: c4 :: _ =>
      if c1.isDigit && c2.isDigit && c3.isDigit && c4.isDigit then
        some [c1, c2, c3, c4]
      else findFourDigitRun rest
    | _ => none

/-- Year extraction of `parse_article` (lines 122-130) as a function of the
two `findtext` results.  `findtext(..., '')` returns `''` both when the
element is absent and when it has no text, so the empty string is exactly
what the code can observe as "absent". -/
def extractYear (yearText medlineDate : String) : String :=
  if yearText ≠ "" then yearText
  else if medlineDate ≠ "" then
    match findFourDigitRun medlineDate.toList with
    | some run => String.mk run
    | none => ""
  else ""

/-- Specification-side predicate: four consecutive digits occur at position
`i` of `l`. -/
def fourDigitRunAt (l : List Char) (i : ℕ) : Prop :=
  4 ≤ (l.drop i).length ∧ ∀ c ∈ (l.drop i).take 4, c.isDigit = true

theorem findFourDigitRun_spec :
    ∀ l : List Char,
      (∀ run, findFourDigitRun l = some run →
        ∃ i, fourDigitRunAt l i ∧ (∀ j, j < i → ¬ fourDigitRunAt l j) ∧
          run = (l.drop i).take 4) ∧
      (findFourDigitRun l = none → ∀ i, ¬ fourDigitRunAt l i) := by
  intro l
  induction l with
  | nil =>
    constructor
    · intro run hrun
      simp [findFourDigitRun] at hrun
    · intro _ i
      intro hcon
      rcases hcon with ⟨hlen, _⟩
      simp at hlen
  | cons c1 rest ih =>
    cases hr : rest with
    | nil =>
      constructor
      · intro run hrun
        simp [findFourDigitRun] at hrun
      · intro _ i hcon
        rcases hcon with ⟨hlen, _⟩
        simp [List.length_drop] at hlen
        omega
    | cons c2 rest2 =>
      cases hr2 : rest2 with
      | nil =>
        constructor
        · intro run hrun
          simp [findFourDigitRun] at hrun
        · intro _ i hcon
          rcases hcon with ⟨hlen, _⟩
          simp [List.length_drop] at hlen
          omega
      | cons c3 rest3 =>
        cases hr3 : rest3 with
        | nil =>
          constructor
          · intro run hrun
            simp [findFourDigitRun] at hrun
          · intro _ i hcon
            rcases hcon with ⟨hlen, _⟩
            simp [List.length_drop] at hlen
            omega
        | cons c4 rest4 =>
          subst hr hr2 hr3
          have hihrest := ih
          cases hd : (c1.isDigit && c2.isDigit && c3.isDigit && c4.isDigit) with
          | true =>
            have hds : c1.isDigit = true ∧ c2.isDigit = true ∧ c3.isDigit = true ∧
                c4.isDigit = true := by
              simp only [Bool.and_eq_true] at hd
              obtain ⟨⟨⟨h1, h2⟩, h3⟩, h4⟩ := hd
              exact ⟨h1, h2, h3, h4⟩
            constructor
            · intro run hrun
              refine ⟨0, ⟨by simp, ?_⟩, by omega, ?_⟩
              · intro c hc
                simp [List.take] at hc
                rcases hc with h | h | h | h <;> rw [h]
                · exact hds.1
                · exact hds.2.1
                · exact hds.2.2.1
                · exact hds.2.2.2
              · have : findFourDigitRun (c1 :: c2 :: c3 :: c4 :: rest4) =
                    some [c1, c2, c3, c4] := by
                  simp [findFourDigitRun, hd]
                rw [this] at hrun
                have hruneq := Option.some_injective _ hrun
                rw [← hruneq]
                simp [List.take]
            · intro hnone
              exfalso
              have : findFourDigitRun (c1 :: c2 :: c3 :: c4 :: rest4) =
                  some [c1, c2, c3, c4] := by
                simp [findFourDigitRun, hd]
              rw [this] at hnone
              exact Option.noConfusion hnone
          | false =>
            have hstep : findFourDigitRun (c1 :: c2 :: c3 :: c4 :: rest4) =
                findFourDigitRun (c2 :: c3 :: c4 :: rest4) := by
              simp [findFourDigitRun, hd]
            have hnot0 : ¬ fourDigitRunAt (c1 :: c2 :: c3 :: c4 :: rest4) 0 := by
              intro hcon
              rcases hcon with ⟨_, hall⟩
              have h1 : c1.isDigit = true := hall c1 (by simp [List.take])
              have h2 : c2.isDigit = true := hall c2 (by simp [List.take])
              have h3 : c3.isDigit = true := hall c3 (by simp [List.take])
              have h4 : c4.isDigit = true := hall c4 (by simp [List.take])
              rw [h1, h2, h3, h4] at hd
              simp at hd
            have hshift : ∀ i, fourDigitRunAt (c1 :: c2 :: c3 :: c4 :: rest4) (i + 1) ↔
                fourDigitRunAt (c2 :: c3 :: c4 :: rest4) i := by
              intro i
              unfold fourDigitRunAt
              rw [List.drop_succ_cons]
            constructor
            · intro run hrun
              rw [hstep] at hrun
              obtain ⟨i, hi, hmin, hruneq⟩ := hihrest.1 run hrun
              refine ⟨i + 1, (hshift i).mpr hi, ?_, ?_⟩
              · intro j hj
                cases j with
                | zero => exact hnot0
                | succ j' =>
                  intro hcon
                  exact hmin j' (by omega) ((hshift j').mp hcon)
              · rw [List.drop_succ_cons]
                exact hruneq
            · intro hnone i
              rw [hstep] at hnone
              cases i with
              | zero => exact hnot0
              | succ i' =>
                intro hcon
                exact hihrest.2 hnone i' ((hshift i').mp hcon)

/-- Claim C6: the parsed year is the explicit `Year` text when that text is
nonempty; otherwise it is the leftmost 4-digit run of the `MedlineDate` text
(in particular `"2024 Jan-Feb"` yields `"2024"`); when neither yields
anything the year is the empty string, and a record with empty year still
increments its journal bucket's count while leaving `year_stats` untouched. -/
theorem parse_article_year_policy (y m : String) (jcr : JcrData)
    (ys : List (String × YStats)) (stats : List (String × JStats)) (p : Pub) :
    (y ≠ "" → extractYear y m = y) ∧
    (y = "" → ∀ run, findFourDigitRun m.toList = some run →
      ∃ i, fourDigitRunAt m.toList i ∧ (∀ j, j < i → ¬ fourDigitRunAt m.toList j) ∧
        extractYear y m = String.mk ((m.toList.drop i).take 4)) ∧
    (y = "" → findFourDigitRun m.toList = none → extractYear y m = "") ∧
    extractYear "" "2024 Jan-Feb" = "2024" ∧
    (p.year = "" →
      stepYear jcr ys p = ys ∧
      ∃ s, lookupA (stepJournal jcr stats p) (pubKey p) = some s ∧
        s.count = ((lookupA stats (pubKey p)).getD {}).count + 1) := by
  refine ⟨?_, ?_, ?_, ?_, ?_⟩
  · intro hy
    simp [extractYear, hy]
  · intro hy run hrun
    subst hy
    have hmnil : m ≠ "" := by
      intro hm
      subst hm
      simp [findFourDigitRun] at hrun
    obtain ⟨i, hi, hmin, hruneq⟩ := (findFourDigitRun_spec m.toList).1 run hrun
    refine ⟨i, hi, hmin, ?_⟩
    simp only [extractYear, ne_eq, not_true_eq_false, if_false, hmnil,
      not_false_eq_true, if_true, hrun]
    rw [hruneq]
  · intro hy hnone
    subst hy
    by_cases hm : m = ""
    · simp [extractYear, hm]
    · have hd : findFourDigitRun m.data = none := hnone
      simp [extractYear, hm, hd]
  · decide
  · intro hy
    constructor
    · simp [stepYear, hy]
    · refine ⟨(fun s =>
          let s1 := match match_journal_to_jcr p.journal_abbrev p.journal_title jcr with
            | some j => { s with «if» := j.«if», quartile := j.quartile.getD "" }
            | none => s
          let s2 := { s1 with count := s1.count + 1 }
          if p.year ≠ "" then { s2 with years := s2.years ++ [p.year] } else s2)
          ((lookupA stats (pubKey p)).getD {}), ?_, ?_⟩
      · unfold stepJournal
        exact lookupA_updateAssoc_self _ _ _ _
      · cases hm : match_journal_to_jcr p.journal_abbrev p.journal_title jcr with
        | some j => simp [hm, hy]
        | none => simp [hm, hy]

/-- Record with empty abbreviation and empty year, used by the C6 witness. -/
def pC6 : Pub :=
  { pmid := "9", title := "t", journal_title := "Unknown", journal_abbrev := "",
    year := "" }

/-- Witness for claim C6 at concrete inputs. -/
theorem parse_article_year_policy_witness :
    extractYear "" "2024 Jan-Feb" = "2024" ∧
    stepYear [] [] pC6 = [] ∧
    (∃ s, lookupA (stepJournal [] [] pC6) (pubKey pC6) = some s ∧
      s.count = ((lookupA ([] : List (String × JStats)) (pubKey pC6)).getD {}).count + 1) := by
  refine ⟨(parse_article_year_policy "x" "y" [] [] [] pC6).2.2.2.1, ?_, ?_⟩
  · exact ((parse_article_year_policy "x" "y" [] [] [] pC6).2.2.2.2 rfl).1
  · exact ((parse_article_year_policy "x" "y" [] [] [] pC6).2.2.2.2 rfl).2

/-! ### Totals, rounding and persistence (lines 221-365) -/

/-- Python 3 `round` to the nearest integer: ties go to the even integer
(banker's rounding), applied here to our exact rational model. -/
def roundHalfEven (q : ℚ) : ℤ :=
  let f := ⌊q⌋
  let r := q - (f : ℚ)
  if r < 1/2 then f
  else if r > 1/2 then f + 1
  else if 2 ∣ f then f else f + 1

/-- Python `round(x, 1)`: round to one decimal place, ties to even. -/
def pyRound1 (q : ℚ) : ℚ := (roundHalfEven (10 * q) : ℚ) / 10

/-- Total impact factor as recomputed in `update_html_stats` (line 244):
`sum(js.get('if', 0) * js.get('count', 0) for js in journal_stats.values())`. -/
def totalIfHtml (stats : List (String × JStats)) : ℚ :=
  (stats.map (fun e => e.2.«if» * (e.2.count : ℚ))).sum

/-- Total impact factor as recomputed in `save_publication_data` (line 306),
written unrounded into the snapshot's `total_if` field. -/
def totalIfData (stats : List (String × JStats)) : ℚ :=
  (stats.map (fun e => e.2.«if» * (e.2.count : ℚ))).sum

/-- Total impact factor as recomputed in `save_publication_log` (line 340). -/
def totalIfLog (stats : List (String × JStats)) : ℚ :=
  (stats.map (fun e => e.2.«if» * (e.2.count : ℚ))).sum

/-- One history-log entry (lines 342-347); its `total_if` field stores
`round(total_if, 1)`. -/
structure LogEntry where
  timestamp : String
  total_count : ℕ
  total_if : ℚ
  journal_count : ℕ
deriving DecidableEq

/-- The log entry built by `save_publication_log` (lines 340-347). -/
def mkLogEntry (timestamp : String) (pub_count : ℕ)
    (journal_stats : List (String × JStats)) : LogEntry :=
  { timestamp := timestamp
    total_count := pub_count
    total_if := pyRound1 (totalIfLog journal_stats)
    journal_count := journal_stats.length }

/-- Journal stats exhibiting the C1 rounding divergence: one journal with
impact factor `1.11` and one publication. -/
def statsC1 : List (String × JStats) :=
  [("J", { count := 1, «if» := 111/100 })]

/-- Claim C1 counterexample: the total impact factor of `statsC1` is `1.11`;
the HTML-side and snapshot-side recomputations both yield `1.11`, but the
history-log entry's `total_if` field stores `round(1.11, 1) = 1.1`, which is
not equal to the sum. -/
theorem total_if_log_rounds_cex :
    totalIfHtml statsC1 = 111/100 ∧
    totalIfData statsC1 = 111/100 ∧
    (mkLogEntry "2026-01-01T00:00:00" 1 statsC1).total_if = 11/10 ∧
    (mkLogEntry "2026-01-01T00:00:00" 1 statsC1).total_if ≠ totalIfData statsC1 := by
  refine ⟨by norm_num [totalIfHtml, statsC1], by norm_num [totalIfData, statsC1], ?_, ?_⟩
  · show pyRound1 (totalIfLog statsC1) = 11/10
    have h1 : totalIfLog statsC1 = 111/100 := by norm_num [totalIfLog, statsC1]
    rw [h1]
    have h2 : (10 : ℚ) * (111/100) = 111/10 := by norm_num
    have h3 : (⌊(111 : ℚ)/10⌋ : ℤ) = 11 := by
      rw [Int.floor_eq_iff] ; norm_num
    unfold pyRound1 roundHalfEven
    rw [h2, h3]
    norm_num
  · intro hcon
    have h1 : (mkLogEntry "2026-01-01T00:00:00" 1 statsC1).total_if = 11/10 := by
      show pyRound1 (totalIfLog statsC1) = 11/10
      have h1 : totalIfLog statsC1 = 111/100 := by norm_num [totalIfLog, statsC1]
      rw [h1]
      have h2 : (10 : ℚ) * (111/100) = 111/10 := by norm_num
      have h3 : (⌊(111 : ℚ)/10⌋ : ℤ) = 11 := by
        rw [Int.floor_eq_iff] ; norm_num
      unfold pyRound1 roundHalfEven
      rw [h2, h3]
      norm_num
    have h2 : totalIfData statsC1 = 111/100 := by norm_num [totalIfData, statsC1]
    rw [h1, h2] at hcon
    norm_num at hcon

/-- Claim C1, amended: the three recomputations of the run's total impact
factor — in `update_html_stats`, `save_publication_data` and
`save_publication_log` — are the same sum
`Σ journal.impact_factor * journal.count`, and the HTML stats and the
snapshot's `total_if` use this exact value; the history-log entry's
`total_if`, however, stores the sum rounded to one decimal place
(`round(total_if, 1)`), which can differ from the sum. -/
theorem total_if_consistency (stats : List (String × JStats))
    (ts : String) (pc : ℕ) :
    totalIfHtml stats = (stats.map (fun e => e.2.«if» * (e.2.count : ℚ))).sum ∧
    totalIfData stats = totalIfHtml stats ∧
    totalIfLog stats = totalIfHtml stats ∧
    (mkLogEntry ts pc stats).total_if = pyRound1 (totalIfHtml stats) :=
  ⟨rfl, rfl, rfl, rfl⟩

/-- `save_publication_log` (lines 349-361) on the parsed log data:
`existing` is the `updates` array of the log file, `none` when the file does
not exist (then `{"updates": []}` is used); the entry is appended and only
the last 100 entries are kept (`updates[-100:]`). -/
def appendLogEntry (existing : Option (List LogEntry)) (e : LogEntry) : List LogEntry :=
  let updates := (existing.getD []) ++ [e]
  updates.drop (updates.length - 100)

/-- Claim C4: after a run the log holds at most 100 entries; the result is
exactly the previous entries with the oldest beyond the cap dropped (FIFO)
followed by the new entry (so the new entry is always retained); with no
existing log file the result is just the new entry. -/
theorem save_publication_log_cap (existing : Option (List LogEntry)) (e : LogEntry) :
    (appendLogEntry existing e).length ≤ 100 ∧
    appendLogEntry existing e =
      (existing.getD []).drop ((existing.getD []).length + 1 - 100) ++ [e] ∧
    appendLogEntry none e = [e] := by
  set prev := existing.getD [] with hprev
  have hk : prev.length + 1 - 100 ≤ prev.length := by omega
  have heq : appendLogEntry existing e = prev.drop (prev.length + 1 - 100) ++ [e] := by
    show (prev ++ [e]).drop ((prev ++ [e]).length - 100) = _
    have hlen : (prev ++ [e]).length = prev.length + 1 := by simp
    rw [hlen, List.drop_append_eq_append_drop]
    have hz : prev.length + 1 - 100 - prev.length = 0 := by omega
    simp [hz]
  refine ⟨?_, heq, rfl⟩
  rw [heq]
  rw [List.length_append, List.length_drop]
  simp only [List.length_singleton]
  omega

/-! ### `save_publication_data` (lines 293-334) -/

/-- One element of the snapshot's `journals` list (lines 307-316). -/
structure SnapshotJournal where
  name : String
  count : ℕ
  impact_factor : ℚ
  quartile : String
  years : List String
deriving DecidableEq

/-- One element of the snapshot's `by_year` list (lines 317-324). -/
structure SnapshotYear where
  year : String
  count : ℕ
  total_if : ℚ
deriving DecidableEq

/-- The snapshot document written to `publication_data.json` (lines 303-326). -/
structure Snapshot where
  last_updated : String
  total_publications : ℕ
  total_if : ℚ
  journals : List SnapshotJournal
  by_year : List SnapshotYear
  recent_publications : List Pub
deriving DecidableEq

/-- Sort comparison of line 300: Python sorts ascending by the key tuple
`(-if, -count)`, i.e. descending impact factor with ties by descending
count. -/
def journalLe (a b : String × JStats) : Bool :=
  decide (b.2.«if» < a.2.«if») || (a.2.«if» == b.2.«if» && decide (b.2.count ≤ a.2.count))

/-- The snapshot's sorted journal list (lines 298-301); Python `sorted` is a
stable mergesort. -/
def sortedJournals (stats : List (String × JStats)) : List (String × JStats) :=
  stats.mergeSort journalLe

/-- Sort comparison of line 323: `sorted(year_stats.items(), reverse=True)` —
descending by the year string (the keys are distinct, so the tuple comparison
never reaches the values). -/
def yearGe (a b : String × YStats) : Bool := decide (b.1 ≤ a.1)

/-- The snapshot's `by_year` order (line 323). -/
def sortedByYear (ys : List (String × YStats)) : List (String × YStats) :=
  ys.mergeSort yearGe

/-- Per-journal year list of line 313: `sorted(set(years), reverse=True)`. -/
def sortYearsDesc (l : List String) : List String :=
  l.dedup.mergeSort (fun a b => decide (b ≤ a))

/-- `save_publication_data` (lines 293-326): the snapshot content as a
function of the aggregates (`datetime.now().isoformat()` is the `now`
parameter; file output is out of scope). -/
def save_publication_data (now : String) (pub_count : ℕ)
    (journal_stats : List (String × JStats)) (year_stats : List (String × YStats))
    (publications : List Pub) : Snapshot :=
  { last_updated := now
    total_publications := pub_count
    total_if := totalIfData journal_stats
    journals := (sortedJournals journal_stats).map (fun e =>
      { name := e.1, count := e.2.count, impact_factor := e.2.«if»,
        quartile := e.2.quartile, years := sortYearsDesc e.2.years })
    by_year := (sortedByYear year_stats).map (fun e =>
      { year := e.1, count := e.2.count, total_if := pyRound1 e.2.total_if })
    recent_publications := publications.take 20 }

theorem journalLe_trans : ∀ a b c : String × JStats,
    journalLe a b → journalLe b c → journalLe a c := by
  intro a b c hab hbc
  simp only [journalLe, Bool.or_eq_true, Bool.and_eq_true, decide_eq_true_eq,
    beq_iff_eq] at hab hbc ⊢
  rcases hab with h1 | ⟨h1, h2⟩
  · rcases hbc with h3 | ⟨h3, h4⟩
    · left; exact lt_trans h3 h1
    · left; rw [← h3]; exact h1
  · rcases hbc with h3 | ⟨h3, h4⟩
    · left; rw [h1]; exact h3
    · right; exact ⟨h1.trans h3, le_trans h4 h2⟩

theorem journalLe_total : ∀ a b : String × JStats, journalLe a b || journalLe b a := by
  intro a b
  simp only [Bool.or_eq_true, journalLe, Bool.and_eq_true, decide_eq_true_eq,
    beq_iff_eq]
  rcases lt_trichotomy a.2.«if» b.2.«if» with h | h | h
  · right; left; exact h
  · rcases le_total b.2.count a.2.count with hc | hc
    · left; right; exact ⟨h, hc⟩
    · right; right; exact ⟨h.symm, hc⟩
  · left; left; exact h

theorem yearGe_trans : ∀ a b c : String × YStats, yearGe a b → yearGe b c → yearGe a c := by
  intro a b c hab hbc
  simp only [yearGe, decide_eq_true_eq] at hab hbc ⊢
  exact le_trans hbc hab

theorem yearGe_total : ∀ a b : String × YStats, yearGe a b || yearGe b a := by
  intro a b
  simp only [Bool.or_eq_true, yearGe, decide_eq_true_eq]
  exact le_total b.1 a.1

/-- Claim C8: the snapshot's `journals` list is ordered by strictly higher
impact factor first with ties broken by higher count first, and its `by_year`
list is ordered with the greatest (most recent) year string first. -/
theorem save_publication_data_sorted (now : String) (pub_count : ℕ)
    (journal_stats : List (String × JStats)) (year_stats : List (String × YStats))
    (publications : List Pub) :
    ((save_publication_data now pub_count journal_stats year_stats
        publications).journals).Pairwise (fun a b =>
      b.impact_factor < a.impact_factor ∨
        (a.impact_factor = b.impact_factor ∧ b.count ≤ a.count)) ∧
    ((save_publication_data now pub_count journal_stats year_stats
        publications).by_year).Pairwise (fun a b => b.year ≤ a.year) := by
  constructor
  · show ((sortedJournals journal_stats).map _).Pairwise _
    rw [List.pairwise_map]
    have hsorted : (sortedJournals journal_stats).Pairwise (fun a b => journalLe a b) :=
      List.sorted_mergeSort journalLe_trans journalLe_total journal_stats
    refine hsorted.imp ?_
    intro a b hab
    simp only [journalLe, Bool.or_eq_true, Bool.and_eq_true, decide_eq_true_eq,
      beq_iff_eq] at hab
    exact hab
  · show ((sortedByYear year_stats).map _).Pairwise _
    rw [List.pairwise_map]
    have hsorted : (sortedByYear year_stats).Pairwise (fun a b => yearGe a b) :=
      List.sorted_mergeSort yearGe_trans yearGe_total year_stats
    refine hsorted.imp ?_
    intro a b hab
    simp only [yearGe, decide_eq_true_eq] at hab
    exact hab

/-! ### Regex substitution engine for `update_html_stats` (lines 221-290)

All eight `re.sub` patterns consist of literal runs and greedily quantified
single-character classes, and in each pattern every quantified class is
followed by a literal whose first character the class cannot match (`<` after
`\d+`, `\+?`, `[\d.]+` and `\s*`; a space after `\w+`), so Python's
backtracking leftmost-greedy matching coincides with plain maximal munch,
which is what the engine below implements. -/

/-- One pattern element: a literal run or a quantified single-character
class (`X?`, `X*`, `X+`, `X{4}`). -/
inductive RItem where
  | lit : List Char → RItem
  | opt : (Char → Bool) → RItem
  | star : (Char → Bool) → RItem
  | plus : (Char → Bool) → RItem
  | rep4 : (Char → Bool) → RItem

/-- Match one item at the head of `l` (maximal munch), returning the consumed
characters and the rest. -/
def matchItem : RItem → List Char → Option (List Char × List Char)
  | .lit s, l => if l.take s.length = s then some (s, l.drop s.length) else none
  | .opt p, l =>
    match l with
    | c :: rest => if p c then some ([c], rest) else some ([], c :: rest)
    | [] => some ([], [])
  | .star p, l => some (l.takeWhile p, l.dropWhile p)
  | .plus p, l => if (l.takeWhile p).isEmpty then none else some (l.takeWhile p, l.dropWhile p)
  | .rep4 p, l =>
    match l with
    | a :: b :: c :: d :: rest =>
      if p a && p b && p c && p d then some ([a, b, c, d], rest) else none
    | _ => none

/-- Match a whole pattern at the head of `l`, returning the consumed piece of
every item (for group references) and the rest. -/
def matchSeq : List RItem → List Char → Option (List (List Char) × List Char)
  | [], l => some ([], l)
  | it :: pat, l =>
    match matchItem it l with
    | some (piece, rest) =>
      match matchSeq pat rest with
      | some (pieces, rest') => some (piece :: pieces, rest')
      | none => none
    | none => none

/-- `re.sub`: replace every non-overlapping leftmost match, scanning left to
right; `repl` builds the replacement text from the per-item pieces.  `fuel`
only drives termination: every accepted match is guarded to consume at least
one character and the scan otherwise advances by one, so `fuel = l.length`
never runs out. -/
def subAllF (pat : List RItem) (repl : List (List Char) → List Char) :
    ℕ → List Char → List Char
  | 0, l => l
  | _ + 1, [] => []
  | fuel + 1, c :: rest =>
    match matchSeq pat (c :: rest) with
    | some (pieces, rest') =>
      if rest'.length < rest.length + 1 then
        repl pieces ++ subAllF pat repl fuel rest'
      else c :: subAllF pat repl fuel rest
    | none => c :: subAllF pat repl fuel rest

/-- `re.sub(pattern, repl, text)`. -/
def subAll (pat : List RItem) (repl : List (List Char) → List Char)
    (l : List Char) : List Char :=
  subAllF pat repl l.length l

/-- `re.search` would succeed: the pattern matches at some position of `l`. -/
def hasMatch (pat : List RItem) : List Char → Bool
  | [] => (matchSeq pat []).isSome
  | c :: rest => (matchSeq pat (c :: rest)).isSome || hasMatch pat rest

theorem subAllF_no_match (pat : List RItem) (repl : List (List Char) → List Char) :
    ∀ (fuel : ℕ) (l : List Char), hasMatch pat l = false → subAllF pat repl fuel l = l := by
  intro fuel
  induction fuel with
  | zero => intro l _; rfl
  | succ fuel ih =>
    intro l hl
    cases l with
    | nil => rfl
    | cons c rest =>
      simp only [hasMatch, Bool.or_eq_false_iff] at hl
      obtain ⟨h1, h2⟩ := hl
      cases hm : matchSeq pat (c :: rest) with
      | some pr =>
        rw [hm] at h1
        simp at h1
      | none =>
        simp only [subAllF, hm]
        rw [ih rest h2]

/-- With no match anywhere in the text, `re.sub` returns the text unchanged. -/
theorem subAll_no_match (pat : List RItem) (repl : List (List Char) → List Char)
    (l : List Char) (h : hasMatch pat l = false) : subAll pat repl l = l :=
  subAllF_no_match pat repl l.length l h

/-! ### The eight substitutions of `update_html_stats` -/

/-- Literal `<div class="stat-number">` (group 1 of the stat patterns). -/
def litStatNumber : List Char := "<div class=\"stat-number\">".toList

/-- Literal `</div>`. -/
def litDivClose : List Char := "</div>".toList

/-- Literal `<div class="stat-label">`. -/
def litStatLabel : List Char := "<div class=\"stat-label\">".toList

/-- The twenty spaces of indentation written by the replacements. -/
def spaces20 : List Char := List.replicate 20 ' '

/-- Regex class `[\d.]`. -/
def isDigitDot (c : Char) : Bool := c.isDigit || c == '.'

/-- Regex class `[+]` (for the escaped `\+?`). -/
def isPlusChar (c : Char) : Bool := c == '+'

/-- Pattern of line 234:
`(<div class="stat-number">)\d+\+?(</div>\s*<div class="stat-label">SCI Publications)`. -/
def patSciStat : List RItem :=
  [.lit litStatNumber, .plus Char.isDigit, .opt isPlusChar, .lit litDivClose,
   .star isPySpace, .lit (litStatLabel ++ "SCI Publications".toList)]

/-- Replacement of line 235, `\g<1>{stat_text}\g<2>`: both groups are kept
verbatim, only the number is replaced. -/
def replSciStat (stat_text : List Char) : List (List Char) → List Char :=
  fun ps =>
    match ps with
    | [g1, _, _, d, w, lb] => g1 ++ stat_text ++ d ++ w ++ lb
    | _ => []

/-- Pattern of line 239: `With over \d+ SCI-indexed publications`. -/
def patWithOver : List RItem :=
  [.lit "With over ".toList, .plus Char.isDigit, .lit " SCI-indexed publications".toList]

/-- Replacement of line 240. -/
def replWithOver (rounded_count : ℕ) : List (List Char) → List Char :=
  fun _ => "With over ".toList ++ (Nat.repr rounded_count).toList ++
    " SCI-indexed publications".toList

/-- Common shape of the five stat patterns (lines 247, 252, 258, 264, 269):
`(<div class="stat-number">)NUM</div>\s*<div class="stat-label">LABEL` where
`NUM` is `\d+` or `[\d.]+`. -/
def patStat (numClass : Char → Bool) (label : List Char) : List RItem :=
  [.lit litStatNumber, .plus numClass, .lit litDivClose, .star isPySpace,
   .lit (litStatLabel ++ label)]

/-- Common shape of the five stat replacements:
`\g<1>VAL</div>\n<20 spaces><div class="stat-label">LABEL`.  The matched
whitespace is rewritten to a newline plus twenty spaces. -/
def replStat (val label : List Char) : List (List Char) → List Char :=
  fun ps =>
    match ps with
    | [g1, _, _, _, _] => g1 ++ val ++ litDivClose ++ '\n' ::
        (spaces20 ++ litStatLabel ++ label)
    | _ => []

/-- Pattern of line 275: `Last updated: \w+ \d{4}`. -/
def patUpdated : List RItem :=
  [.lit "Last updated: ".toList, .plus isWordChar, .lit [' '], .rep4 Char.isDigit]

/-- Replacement of line 276. -/
def replUpdated (today : List Char) : List (List Char) → List Char :=
  fun _ => "Last updated: ".toList ++ today

/-- Python `f'{x:.1f}'` on the rational model: one decimal, ties to even. -/
def fmtFixed1 (q : ℚ) : List Char :=
  let r := roundHalfEven (10 * q)
  let a := r.natAbs
  (if r < 0 then ['-'] else []) ++ (Nat.repr (a / 10)).toList ++
    '.' :: (Nat.repr (a % 10)).toList

/-- Python `f'{x:.2f}'` on the rational model: two decimals, ties to even. -/
def fmtFixed2 (q : ℚ) : List Char :=
  let r := roundHalfEven (100 * q)
  let a := r.natAbs
  let frac := a % 100
  (if r < 0 then ['-'] else []) ++ (Nat.repr (a / 100)).toList ++
    '.' :: ((if frac < 10 then ['0'] else []) ++ (Nat.repr frac).toList)

/-- The eight `re.sub` calls of `update_html_stats` (lines 229-277) in source
order, with the run's replacement values baked in (`year_stats` is accepted
and ignored by the Python function as well). -/
def htmlSubs (pub_count : ℕ) (journal_stats : List (String × JStats))
    (today : List Char) : List ((List RItem) × (List (List Char) → List Char)) :=
  let rounded_count := pub_count / 10 * 10
  let stat_text := (Nat.repr rounded_count).toList ++ ['+']
  let total_if := totalIfHtml journal_stats
  let avg_if := if pub_count > 0 then total_if / (pub_count : ℚ) else 0
  let num_journals := journal_stats.length
  [(patSciStat, replSciStat stat_text),
   (patWithOver, replWithOver rounded_count),
   (patStat isDigitDot "Total Impact Factor".toList,
    replStat (fmtFixed1 total_if) "Total Impact Factor".toList),
   (patStat Char.isDigit "Total Publications".toList,
    replStat (Nat.repr pub_count).toList "Total Publications".toList),
   (patStat isDigitDot "Average Impact Factor".toList,
    replStat (fmtFixed2 avg_if) "Average Impact Factor".toList),
   (patStat Char.isDigit "Different Journals".toList,
    replStat (Nat.repr num_journals).toList "Different Journals".toList),
   (patStat isDigitDot "Total IF Sum".toList,
    replStat (fmtFixed1 total_if) "Total IF Sum".toList),
   (patUpdated, replUpdated today)]

/-- `update_html_stats` (lines 221-290) on the document text: apply the eight
substitutions in order and report `True` exactly when the final text differs
from the original (the Python function then writes the file; I/O and the
exception path are out of scope). -/
def update_html_stats (content : List Char) (pub_count : ℕ)
    (journal_stats : List (String × JStats)) (year_stats : List (String × YStats))
    (today : List Char) : List Char × Bool :=
  let final := (htmlSubs pub_count journal_stats today).foldl
    (fun t pr => subAll pr.1 pr.2 t) content
  (final, final != content)

/-- At least one of the substitutions, applied in sequence, changed the text
it was applied to. -/
def someStageAltered : List ((List RItem) × (List (List Char) → List Char)) →
    List Char → Prop
  | [], _ => False
  | pr :: rest, t => subAll pr.1 pr.2 t ≠ t ∨ someStageAltered rest (subAll pr.1 pr.2 t)

theorem someStageAltered_of_foldl_ne :
    ∀ (subs : List ((List RItem) × (List (List Char) → List Char))) (t : List Char),
      subs.foldl (fun t pr => subAll pr.1 pr.2 t) t ≠ t → someStageAltered subs t := by
  intro subs
  induction subs with
  | nil => intro t h; exact absurd rfl h
  | cons pr rest ih =>
    intro t h
    by_cases h1 : subAll pr.1 pr.2 t = t
    · refine Or.inr ?_
      rw [List.foldl_cons, h1] at h
      rw [h1]
      exact ih t h
    · exact Or.inl h1

theorem foldl_subs_no_match :
    ∀ (subs : List ((List RItem) × (List (List Char) → List Char))) (t : List Char),
      (∀ pr ∈ subs, hasMatch pr.1 t = false) →
      subs.foldl (fun t pr => subAll pr.1 pr.2 t) t = t := by
  intro subs
  induction subs with
  | nil => intro t _; rfl
  | cons pr rest ih =>
    intro t h
    rw [List.foldl_cons, subAll_no_match pr.1 pr.2 t (h pr (List.mem_cons_self _ _))]
    exact ih t (fun q hq => h q (List.mem_cons_of_mem pr hq))

/-- Claim C5: when none of the targeted patterns occur in the input text the
document substitution is a no-op and reports "unchanged"; each targeted field
whose pattern is not found in the text it is applied to is left unchanged
without error; the update reports "changed" exactly when the resulting
document text differs from the input, and any such difference comes from at
least one substitution actually altering the document text it ran on. -/
theorem update_html_stats_claim (content : List Char) (pub_count : ℕ)
    (journal_stats : List (String × JStats)) (year_stats : List (String × YStats))
    (today : List Char) :
    ((∀ pr ∈ htmlSubs pub_count journal_stats today, hasMatch pr.1 content = false) →
      update_html_stats content pub_count journal_stats year_stats today =
        (content, false)) ∧
    (∀ pr ∈ htmlSubs pub_count journal_stats today, ∀ t : List Char,
      hasMatch pr.1 t = false → subAll pr.1 pr.2 t = t) ∧
    ((update_html_stats content pub_count journal_stats year_stats today).2 = true ↔
      (update_html_stats content pub_count journal_stats year_stats today).1 ≠ content) ∧
    ((update_html_stats content pub_count journal_stats year_stats today).2 = true →
      someStageAltered (htmlSubs pub_count journal_stats today) content) := by
  set F := (htmlSubs pub_count journal_stats today).foldl
    (fun t pr => subAll pr.1 pr.2 t) content with hF
  have hdef : update_html_stats content pub_count journal_stats year_stats today =
      (F, F != content) := rfl
  refine ⟨?_, ?_, ?_, ?_⟩
  · intro hall
    have hfinal : F = content := by
      rw [hF]
      exact foldl_subs_no_match (htmlSubs pub_count journal_stats today) content hall
    rw [hdef, hfinal, bne_self_eq_false]
  · intro pr _ t ht
    exact subAll_no_match pr.1 pr.2 t ht
  · rw [hdef]
    dsimp only
    exact bne_iff_ne
  · intro h
    rw [hdef] at h
    dsimp only at h
    refine someStageAltered_of_foldl_ne _ content ?_
    rw [← hF]
    exact bne_iff_ne.mp h

/-- Witness for claim C5: a document containing none of the patterns is
returned unchanged with result `false`; a single field is a no-op on a text
without its pattern; and on a document holding only a stale date stamp the
run reports "changed" and some substitution indeed altered the text. -/
theorem update_html_stats_claim_witness :
    update_html_stats "hello".toList 123 [] [] "October 2026".toList =
      ("hello".toList, false) ∧
    subAll patSciStat (replSciStat ((Nat.repr (123 / 10 * 10)).toList ++ ['+']))
      "abc".toList = "abc".toList ∧
    someStageAltered (htmlSubs 123 [] "October 2026".toList)
      "Last updated: March 2024".toList := by
  refine ⟨?_, ?_, ?_⟩
  · refine (update_html_stats_claim "hello".toList 123 [] [] "October 2026".toList).1 ?_
    intro pr hpr
    simp only [htmlSubs, List.mem_cons, List.not_mem_nil, or_false] at hpr
    rcases hpr with rfl | rfl | rfl | rfl | rfl | rfl | rfl | rfl
    · decide
    · decide
    · decide
    · decide
    · decide
    · decide
    · decide
    · decide
  · exact (update_html_stats_claim "hello".toList 123 [] [] "October 2026".toList).2.1
      _ (List.mem_cons_self _ _) "abc".toList (by decide)
  · exact (update_html_stats_claim "Last updated: March 2024".toList 123 [] []
      "October 2026".toList).2.2.2 (by decide)

/-! ### `main` (lines 368-417) -/

/-- Observable outcome of one run: the process exit code of lines 414-417 and
which pipeline stages ran and what they produced. -/
structure RunOutcome where
  exitCode : ℕ
  ranPipeline : Bool
  htmlResult : Option (List Char × Bool)
  snapshot : Option Snapshot
  logUpdates : Option (List LogEntry)

/-- `main` (lines 368-411) combined with the exit protocol
`sys.exit(0 if success else 1)` (lines 414-417): with no PubMed ids the run
stops before the detail fetch, the analysis and every write and the process
exits with 1; otherwise the whole pipeline runs and the exit code is 0
exactly when `update_html_stats` reported the document changed. -/
def main (pmids : List String) (pub_count : ℕ) (publications : List Pub)
    (jcr : JcrData) (content : List Char) (now : String) (today : List Char)
    (existingLog : Option (List LogEntry)) : RunOutcome :=
  if pmids.isEmpty then
    { exitCode := 1, ranPipeline := false, htmlResult := none, snapshot := none,
      logUpdates := none }
  else
    let journal_stats := journalStats jcr publications
    let year_stats := yearStats jcr publications
    let r := update_html_stats content pub_count journal_stats year_stats today
    { exitCode := if r.2 then 0 else 1
      ranPipeline := true
      htmlResult := some r
      snapshot := some (save_publication_data now pub_count journal_stats year_stats
        publications)
      logUpdates := some (appendLogEntry existingLog
        (mkLogEntry now pub_count journal_stats)) }

set_option maxHeartbeats 4000000 in
/-- Claim C7: the process exits with 0 exactly when the document text was
actually changed; an empty identifier search halts the pipeline with exit
code 1 and no fetch, analysis or writes; and a run whose document text is
unchanged exits with 1. -/
theorem main_exit_policy (pmids : List String) (pub_count : ℕ)
    (publications : List Pub) (jcr : JcrData) (content : List Char)
    (now : String) (today : List Char) (existingLog : Option (List LogEntry)) :
    (pmids = [] →
      main pmids pub_count publications jcr content now today existingLog =
        { exitCode := 1, ranPipeline := false, htmlResult := none, snapshot := none,
          logUpdates := none }) ∧
    (pmids ≠ [] →
      ((main pmids pub_count publications jcr content now today existingLog).exitCode = 0 ↔
        (update_html_stats content pub_count (journalStats jcr publications)
          (yearStats jcr publications) today).1 ≠ content)) ∧
    (pmids ≠ [] →
      (update_html_stats content pub_count (journalStats jcr publications)
        (yearStats jcr publications) today).1 = content →
      (main pmids pub_count publications jcr content now today existingLog).exitCode = 1) := by
  set F := (htmlSubs pub_count (journalStats jcr publications) today).foldl
    (fun t pr => subAll pr.1 pr.2 t) content with hF
  have hupd : update_html_stats content pub_count (journalStats jcr publications)
      (yearStats jcr publications) today = (F, F != content) := rfl
  have hexit : ∀ (p : String) (ps : List String),
      (main (p :: ps) pub_count publications jcr content now today
        existingLog).exitCode =
      if (update_html_stats content pub_count (journalStats jcr publications)
          (yearStats jcr publications) today).2 = true then 0 else 1 := by
    intro p ps
    simp only [main, List.isEmpty_cons, Bool.false_eq_true, if_false]
  have hexit' : ∀ (p : String) (ps : List String),
      (main (p :: ps) pub_count publications jcr content now today
        existingLog).exitCode = if (F != content) = true then 0 else 1 := by
    intro p ps
    rw [hexit p ps, hupd]
  have hiff : ∀ _ : pmids ≠ [],
      ((main pmids pub_count publications jcr content now today existingLog).exitCode = 0 ↔
        F ≠ content) := by
    intro hne
    obtain ⟨p, ps, rfl⟩ := List.exists_cons_of_ne_nil hne
    rw [hexit' p ps]
    by_cases hch : F = content
    · rw [hch]
      simp
    · rw [bne_iff_ne.mpr hch]
      simp [hch]
  refine ⟨?_, ?_, ?_⟩
  · intro hnil
    subst hnil
    rfl
  · intro hne
    rw [hupd]
    dsimp only
    exact hiff hne
  · intro hne hsame
    rw [hupd] at hsame
    dsimp only at hsame
    obtain ⟨p, ps, rfl⟩ := List.exists_cons_of_ne_nil hne
    rw [hexit' p ps, hsame]
    simp

/-- Witness for claim C7: an empty id list gives exit code 1 with nothing
run; a nonempty id list over an unchanged one-character document gives exit
code 1. -/
theorem main_exit_policy_witness :
    main [] 0 [] [] "x".toList "t" "October 2026".toList none =
      { exitCode := 1, ranPipeline := false, htmlResult := none, snapshot := none,
        logUpdates := none } ∧
    (main ["1"] 5 [] [] "x".toList "t" "October 2026".toList none).exitCode = 1 := by
  constructor
  · exact (main_exit_policy [] 0 [] [] "x".toList "t" "October 2026".toList none).1 rfl
  · exact (main_exit_policy ["1"] 5 [] [] "x".toList "t" "October 2026".toList none).2.2
      (by decide) (by decide)
